import Mathlib

/-!
Verification development for the Portfolio globe scene.

Shallow embedding, over exact real arithmetic, of the algorithmic core of
`src/components/GlobeScene.tsx` and `src/components/LoaderOverlay.tsx`:

* the low-precision solar ephemeris (`jd`, `T`, `n2`, `solarRAdecAndGMST`,
  `sunVec_EarthFixed`),
* the three.js vector/quaternion operations the scene uses
  (`normalize`, `setFromUnitVectors`, `applyQuaternion`, `lerpVectors`,
  `distanceTo`, `MathUtils.clamp`, `MathUtils.degToRad`),
* the per-frame orientation update of `EarthSystem`,
* the `CameraPilot` flight state machine (start effect and per-frame update),
* the `earthFS` fragment-shader day/night blend policy, and
* the `latLonToVec3` geographic conversion.

JavaScript `number` values are modelled as real numbers; the JS `%` operator
(truncated remainder) is modelled by `jsMod` built on truncation toward zero.
-/

noncomputable section

namespace Portfolio

/-! ### three.js `Vector3` -/

/-- A 3-component vector, modelling `THREE.Vector3`. -/
structure Vec3 where
  x : ℝ
  y : ℝ
  z : ℝ

/-- `Vector3.dot`. -/
def dot3 (a b : Vec3) : ℝ := a.x * b.x + a.y * b.y + a.z * b.z

/-- `Vector3.length`. -/
def norm3 (v : Vec3) : ℝ := Real.sqrt (v.x * v.x + v.y * v.y + v.z * v.z)

/-- `Vector3.distanceTo`. -/
def dist3 (a b : Vec3) : ℝ :=
  Real.sqrt ((a.x - b.x) * (a.x - b.x) + (a.y - b.y) * (a.y - b.y)
    + (a.z - b.z) * (a.z - b.z))

/-- `Vector3.multiplyScalar`. -/
def smul3 (s : ℝ) (v : Vec3) : Vec3 := ⟨s * v.x, s * v.y, s * v.z⟩

/-- `Vector3.normalize`: `divideScalar(length() || 1)` — a zero-length vector
is left unchanged. -/
def normalize3 (v : Vec3) : Vec3 :=
  if norm3 v = 0 then v else smul3 (1 / norm3 v) v

/-- `Vector3.lerpVectors(v1, v2, alpha)`. -/
def lerp3 (a b : Vec3) (t : ℝ) : Vec3 :=
  ⟨a.x + (b.x - a.x) * t, a.y + (b.y - a.y) * t, a.z + (b.z - a.z) * t⟩

/-! ### three.js `Quaternion` -/

/-- A quaternion, modelling `THREE.Quaternion` (`x`, `y`, `z` imaginary parts,
`w` real part). -/
structure Quat where
  x : ℝ
  y : ℝ
  z : ℝ
  w : ℝ

/-- `Quaternion.length`. -/
def quatLength (q : Quat) : ℝ :=
  Real.sqrt (q.x * q.x + q.y * q.y + q.z * q.z + q.w * q.w)

/-- `Quaternion.normalize`: a zero-length quaternion becomes the identity. -/
def quatNormalize (q : Quat) : Quat :=
  if quatLength q = 0 then ⟨0, 0, 0, 1⟩
  else
    ⟨q.x * (1 / quatLength q), q.y * (1 / quatLength q),
     q.z * (1 / quatLength q), q.w * (1 / quatLength q)⟩

/-- JavaScript `Number.EPSILON` = 2⁻⁵². -/
def numberEpsilon : ℝ := 1 / 2 ^ (52 : ℕ)

/-- `Quaternion.setFromUnitVectors(vFrom, vTo)`: shortest-arc rotation taking
`vFrom` to `vTo`, with a fallback 180° rotation about an axis orthogonal to
`vFrom` when the vectors are (nearly) antiparallel. -/
def setFromUnitVectors (vFrom vTo : Vec3) : Quat :=
  let r := dot3 vFrom vTo + 1
  if r < numberEpsilon then
    (if |vFrom.x| > |vFrom.z| then
      quatNormalize ⟨-vFrom.y, vFrom.x, 0, 0⟩
    else
      quatNormalize ⟨0, -vFrom.z, vFrom.y, 0⟩)
  else
    quatNormalize
      ⟨vFrom.y * vTo.z - vFrom.z * vTo.y,
       vFrom.z * vTo.x - vFrom.x * vTo.z,
       vFrom.x * vTo.y - vFrom.y * vTo.x, r⟩

/-- `Vector3.applyQuaternion(q)`: `v + q.w * t + cross(q.xyz, t)` with
`t = 2 * cross(q.xyz, v)`. -/
def applyQuaternion (q : Quat) (v : Vec3) : Vec3 :=
  let tx := 2 * (q.y * v.z - q.z * v.y)
  let ty := 2 * (q.z * v.x - q.x * v.z)
  let tz := 2 * (q.x * v.y - q.y * v.x)
  ⟨v.x + q.w * tx + q.y * tz - q.z * ty,
   v.y + q.w * ty + q.z * tx - q.x * tz,
   v.z + q.w * tz + q.x * ty - q.y * tx⟩

/-! ### three.js `MathUtils` -/

/-- `THREE.MathUtils.clamp(value, min, max)` = `Math.max(min, Math.min(max, value))`. -/
def clamp (value lo hi : ℝ) : ℝ := max lo (min hi value)

/-- `THREE.MathUtils.degToRad`. -/
def degToRad (deg : ℝ) : ℝ := deg * (Real.pi / 180)

/-! ### JavaScript numeric primitives -/

/-- JavaScript truncation toward zero (the integer part used by the `%`
operator). -/
def jsTrunc (x : ℝ) : ℤ := if 0 ≤ x then ⌊x⌋ else ⌈x⌉

/-- The JavaScript `%` operator on numbers: `a - n * trunc(a / n)`, a
truncated (sign-of-dividend) remainder. -/
def jsMod (a n : ℝ) : ℝ := a - n * jsTrunc (a / n)

/-- JavaScript `Math.atan2(y, x)`. -/
def atan2 (y x : ℝ) : ℝ :=
  if 0 < x then Real.arctan (y / x)
  else if x < 0 then
    (if 0 ≤ y then Real.arctan (y / x) + Real.pi
     else Real.arctan (y / x) - Real.pi)
  else (if 0 < y then Real.pi / 2 else if y < 0 then -(Real.pi / 2) else 0)

/-! ### Scene constants (`GlobeScene.tsx` / `LoaderOverlay.tsx` globals) -/

/-- `SUN_W = new THREE.Vector3(-0.7, 0.7, 0.75).normalize()` — the fixed
world-space sun direction. -/
def SUN_W : Vec3 := normalize3 ⟨-0.7, 0.7, 0.75⟩

/-- `TIME_SCALE`. -/
def TIME_SCALE : ℝ := 1

/-- `AMBIENT`. -/
def AMBIENT : ℝ := 0.10

/-- `CLOUD_ROTATION_PERIOD_HOURS`. -/
def CLOUD_ROTATION_PERIOD_HOURS : ℝ := 12

/-- `CLOUD_SPEED_MULTIPLIER`. -/
def CLOUD_SPEED_MULTIPLIER : ℝ := 36

/-- `OMEGA_CLOUD = 2π / (CLOUD_ROTATION_PERIOD_HOURS * 3600)`. -/
def OMEGA_CLOUD : ℝ := 2 * Real.pi / (CLOUD_ROTATION_PERIOD_HOURS * 3600)

/-- `GLOBE_RADIUS` (`LoaderOverlay.tsx`). -/
def GLOBE_RADIUS : ℝ := 1.5

/-- `MARKER_HEIGHT` (`LoaderOverlay.tsx`). -/
def MARKER_HEIGHT : ℝ := 0.017

/-! ### Solar ephemeris (`solarRAdecAndGMST` and helpers)

The source computes everything inside one function body; each `const` binding
is lifted to a top-level definition of the same name, as a function of the
century count `t` (resp. the Julian date `J`), so individual steps can be
reasoned about. An instant `d` is the JavaScript `Date.getTime()` value in
milliseconds since the Unix epoch, as a real number. -/

/-- `DEG = Math.PI / 180`. -/
def DEG : ℝ := Real.pi / 180

/-- `jd(d) = d.getTime() / 86400000 + 2440587.5` — fractional Julian date. -/
def jd (d : ℝ) : ℝ := d / 86400000 + 2440587.5

/-- `T(J) = (J - 2451545.0) / 36525.0` — Julian centuries since J2000. -/
def T (J : ℝ) : ℝ := (J - 2451545.0) / 36525.0

/-- `n2(a)`: reduce an angle in radians into `[0, 2π)`; `a %= 2π` followed by
adding `2π` when negative. -/
def n2 (a : ℝ) : ℝ :=
  let b := jsMod a (2 * Real.pi)
  if b < 0 then b + 2 * Real.pi else b

/-- `L0`: mean longitude of the sun in degrees, reduced by the JS `%` operator. -/
def L0 (t : ℝ) : ℝ := jsMod (280.46646 + t * (36000.76983 + 0.0003032 * t)) 360

/-- `M`: mean anomaly of the sun in degrees (not reduced). -/
def M (t : ℝ) : ℝ := 357.52911 + t * (35999.05029 - 0.0001537 * t)

/-- `Omega`: longitude of the ascending node of the Moon, in degrees. -/
def Omega (t : ℝ) : ℝ := 125.04 - 1934.136 * t

/-- `C`: the equation of center, a three-term sine series in the mean anomaly. -/
def C (t : ℝ) : ℝ :=
  (1.914602 - t * (0.004817 + 0.000014 * t)) * Real.sin (M t * DEG)
    + (0.019993 - 0.000101 * t) * Real.sin (2.0 * (M t * DEG))
    + 0.000289 * Real.sin (3.0 * (M t * DEG))

/-- `trueLong = L0 + C`: true longitude in degrees. -/
def trueLong (t : ℝ) : ℝ := L0 t + C t

/-- `lambdaApp`: apparent longitude in degrees (aberration and nutation
corrections). -/
def lambdaApp (t : ℝ) : ℝ :=
  trueLong t - 0.00569 - 0.00478 * Real.sin (Omega t * DEG)

/-- `eps0`: mean obliquity of the ecliptic in degrees. -/
def eps0 (t : ℝ) : ℝ :=
  23 + 26 / 60 + 21.448 / 3600
    - (46.8150 * t + 0.00059 * t * t - 0.001813 * t * t * t) / 3600

/-- `eps`: obliquity corrected for nutation, in degrees. -/
def eps (t : ℝ) : ℝ := eps0 t + 0.00256 * Real.cos (Omega t * DEG)

/-- `dec = asin(sin(epsR) * sin(lam))`: solar declination in radians. -/
def decOf (t : ℝ) : ℝ :=
  Real.arcsin (Real.sin (eps t * DEG) * Real.sin (lambdaApp t * DEG))

/-- `ra = n2(atan2(cos(epsR) * sin(lam), cos(lam)))`: right ascension in
radians, reduced into `[0, 2π)`. -/
def raOf (t : ℝ) : ℝ :=
  n2 (atan2 (Real.cos (eps t * DEG) * Real.sin (lambdaApp t * DEG))
    (Real.cos (lambdaApp t * DEG)))

/-- `GMSTdeg`: Greenwich Mean Sidereal Time in degrees, reduced by the JS `%`
operator. -/
def GMSTdeg (J t : ℝ) : ℝ :=
  jsMod (280.46061837 + 360.98564736629 * (J - 2451545.0)
    + 0.000387933 * t * t - (t * t * t) / 38710000) 360

/-- The record returned by `solarRAdecAndGMST`. -/
structure SolarAngles where
  ra : ℝ
  dec : ℝ
  GMST : ℝ

/-- `solarRAdecAndGMST(d)`: right ascension, declination and GMST (radians)
for the instant `d` (milliseconds since the Unix epoch). -/
def solarRAdecAndGMST (d : ℝ) : SolarAngles :=
  let J := jd d
  let t := T J
  ⟨raOf t, decOf t, n2 (GMSTdeg J t * DEG)⟩

/-- `sunVec_EarthFixed(d)`: Earth-fixed unit vector toward the sun. -/
def sunVec_EarthFixed (d : ℝ) : Vec3 :=
  let s := solarRAdecAndGMST d
  let Hg := n2 (s.GMST - s.ra)
  let cosd := Real.cos s.dec
  normalize3 ⟨cosd * Real.cos Hg, Real.sin s.dec, cosd * Real.sin Hg⟩

/-! ### `EarthSystem` per-frame update

The `useFrame` callback mutates: the base group quaternion, the cloud shell
rotation, the intro-fade clock and the `uGain` uniform. The uniforms object is
created once; only `uGain.value` is ever reassigned afterwards (`uSunDir` is
written once from `SUN_W.clone()`). -/

/-- The mutable per-frame state of `EarthSystem`: the `uSunDir`, `uAmbient`
and `uGain` uniform values, the base group quaternion, the cloud shell `y`
rotation and the intro-fade clock. -/
structure EarthState where
  uSunDir : Vec3
  uAmbient : ℝ
  uGain : ℝ
  baseQuat : Quat
  cloudRotY : ℝ
  introT : ℝ

/-- The simulated instant sampled by a frame:
`t0Sim + (Date.now() - t0Real) * TIME_SCALE`. -/
def simInstant (t0Sim t0Real now : ℝ) : ℝ := t0Sim + (now - t0Real) * TIME_SCALE

/-- One `useFrame` tick of `EarthSystem`: recompute the sun direction for the
simulated instant, set the base quaternion to the rotation taking it to
`SUN_W`, advance the cloud rotation, and advance the intro fade (cubic
ease-out driving `uGain`). -/
def earthFrame (s : EarthState) (t0Sim t0Real now dt : ℝ) : EarthState :=
  let sim := simInstant t0Sim t0Real now
  let s_e := sunVec_EarthFixed sim
  let q := setFromUnitVectors s_e SUN_W
  let introT' := min (s.introT + dt) 1.0
  let eased := 1.0 - (1.0 - introT' / 1.0) ^ (3 : ℕ)
  { s with
    baseQuat := q
    cloudRotY := s.cloudRotY + OMEGA_CLOUD * dt * CLOUD_SPEED_MULTIPLIER
    introT := introT'
    uGain := eased }

/-! ### `earthFS` day/night blend (per-channel policy) -/

/-- GLSL `smoothstep(e0, e1, x)`. -/
def smoothstep (e0 e1 x : ℝ) : ℝ :=
  let t := clamp ((x - e0) / (e1 - e0)) 0 1
  t * t * (3 - 2 * t)

/-- `dayAmt = smoothstep(-0.15, 0.15, k)` from `earthFS`, as a function of
`k = dot(normalize(vNormalW), normalize(uSunDir))`. -/
def dayAmt (k : ℝ) : ℝ := smoothstep (-0.15) 0.15 k

/-- One color channel of the `earthFS` blend:
`dayCol*(uAmbient + dayAmt*(1-uAmbient)) + nightCol*((1-dayAmt)*0.9)`,
with the shipped `uAmbient = AMBIENT`. -/
def blendChannel (dayCol nightCol k : ℝ) : ℝ :=
  dayCol * (AMBIENT + dayAmt k * (1 - AMBIENT))
    + nightCol * ((1 - dayAmt k) * 0.9)

/-- The weight multiplying the day texel in `blendChannel`. -/
def dayWeight (k : ℝ) : ℝ := AMBIENT + dayAmt k * (1 - AMBIENT)

/-- The weight multiplying the night texel in `blendChannel`. -/
def nightWeight (k : ℝ) : ℝ := (1 - dayAmt k) * 0.9

/-! ### `latLonToVec3` (`LoaderOverlay.tsx`) -/

/-- `latLonToVec3(latDeg, lonDeg, r)`: geographic degrees to a Cartesian point
on the sphere of radius `r`, with the longitude negated for the east-positive
display convention. -/
def latLonToVec3 (latDeg lonDeg r : ℝ) : Vec3 :=
  let lat := degToRad latDeg
  let lon := -(degToRad lonDeg)
  ⟨r * Real.cos lat * Real.cos lon, r * Real.sin lat, r * Real.cos lat * Real.sin lon⟩

/-! ### `CameraPilot` flight state machine -/

/-- The ref cells of `CameraPilot`: interpolation endpoints, look-at target,
start timestamp, duration (seconds), `flying` and the "arrival fired" flag
`faded`. -/
structure PilotState where
  startPos : Option Vec3
  endPos : Option Vec3
  lookAt : Option Vec3
  t0 : ℝ
  duration : ℝ
  flying : Bool
  faded : Bool

/-- The camera plus pilot state acted on each frame. -/
structure CamState where
  cam : Vec3
  pilot : PilotState

/-- The `useEffect` body run when a target point arrives: capture endpoints,
compute the distance-adaptive duration `clamp(0.7 + d*0.35, 1.0, 3.0)`,
record the start timestamp and clear the arrival flag. -/
def pilotStart (p : PilotState) (targetPoint camPos : Vec3) (now : ℝ) : PilotState :=
  let n := normalize3 targetPoint
  let endP := smul3 (GLOBE_RADIUS + 0.09) n
  let startP := camPos
  let d := dist3 startP endP
  { p with
    startPos := some startP
    endPos := some endP
    lookAt := some targetPoint
    duration := clamp (0.7 + d * 0.35) 1.0 3.0
    t0 := now
    flying := true
    faded := false }

/-- One `useFrame` tick of `CameraPilot` at wall-clock `now` (ms): returns the
new state and whether `onArrive` was invoked this frame. -/
def pilotFrame (c : CamState) (now : ℝ) : CamState × Bool :=
  match c.pilot.flying, c.pilot.startPos, c.pilot.endPos, c.pilot.lookAt with
  | true, some startP, some endP, some _lookAtP =>
    let t := (now - c.pilot.t0) / (c.pilot.duration * 1000)
    let e := if t ≤ 0 then 0 else if 1 ≤ t then 1 else t * t * (3 - 2 * t)
    let pos := lerp3 startP endP e
    let d := dist3 pos endP
    let fire := !c.pilot.faded && decide (d < 0.65)
    let faded' := if fire then true else c.pilot.faded
    let flying' := if 1 ≤ e then false else c.pilot.flying
    (⟨pos, { c.pilot with faded := faded', flying := flying' }⟩, fire)
  | _, _, _, _ => (c, false)

/-- Run `pilotFrame` over a list of frame times, collecting the per-frame
`onArrive` firings. -/
def pilotRun (c : CamState) (times : List ℝ) : List Bool :=
  match times with
  | [] => []
  | t :: ts =>
    let step := pilotFrame c t
    step.2 :: pilotRun step.1 ts

/-- Whether a frame at time `now` of a flight with start `startP`, destination
`endP`, start timestamp `t0` and duration `dur` would place the camera within
the 0.65 arrival threshold — the pure distance condition of the claim,
independent of the pilot's flags. -/
def pilotHit (startP endP : Vec3) (t0 dur now : ℝ) : Bool :=
  let t := (now - t0) / (dur * 1000)
  let e := if t ≤ 0 then 0 else if 1 ≤ t then 1 else t * t * (3 - 2 * t)
  decide (dist3 (lerp3 startP endP e) endP < 0.65)

/-- Mark only the first `true` of a boolean list, clearing every later entry:
the expected firing pattern of a once-guarded event. -/
def firstTrue : List Bool → List Bool
  | [] => []
  | b :: bs => if b then true :: bs.map (fun _ => false) else false :: firstTrue bs

/-! ## Theorems -/

/-- The `n2` reduction agrees with the floor-style reduction
`2π * Int.fract (a / 2π)`: the compensation branch repairs the truncated
remainder for negative inputs. -/
theorem n2_eq_fract (a : ℝ) :
    n2 a = 2 * Real.pi * Int.fract (a / (2 * Real.pi)) := by
  have h2pi : (0 : ℝ) < 2 * Real.pi := by positivity
  have hax : 2 * Real.pi * (a / (2 * Real.pi)) = a := by
    field_simp
  rw [n2, jsMod, jsTrunc]
  by_cases h0 : 0 ≤ a / (2 * Real.pi)
  · rw [if_pos h0]
    have he : a - 2 * Real.pi * ⌊a / (2 * Real.pi)⌋
        = 2 * Real.pi * Int.fract (a / (2 * Real.pi)) := by
      rw [Int.fract]
      nlinarith [hax]
    rw [he, if_neg (not_lt.mpr (mul_nonneg h2pi.le (Int.fract_nonneg _)))]
  · rw [if_neg h0]
    rcases Int.fract_eq_zero_or_add_one_sub_ceil (a / (2 * Real.pi)) with hz | hc
    · have hfl : (a / (2 * Real.pi)) = (⌊a / (2 * Real.pi)⌋ : ℝ) := by
        have := Int.self_sub_floor (α := ℝ) (a / (2 * Real.pi))
        rw [hz] at this
        linarith
      have hce : ⌈a / (2 * Real.pi)⌉ = ⌊a / (2 * Real.pi)⌋ := by
        rw [hfl, Int.ceil_intCast, Int.floor_intCast]
      have hb : a - 2 * Real.pi * ⌈a / (2 * Real.pi)⌉ = 0 := by
        rw [hce]
        nlinarith [hax, hfl]
      rw [hb, hz, if_neg (by norm_num)]
      ring
    · have hb : a - 2 * Real.pi * ⌈a / (2 * Real.pi)⌉
          = 2 * Real.pi * (Int.fract (a / (2 * Real.pi)) - 1) := by
        nlinarith [hax, hc]
      have hneg : a - 2 * Real.pi * ⌈a / (2 * Real.pi)⌉ < 0 := by
        rw [hb]
        have := Int.fract_lt_one (a / (2 * Real.pi))
        nlinarith
      rw [if_pos hneg, hb]
      ring

/-- `n2` lands in `[0, 2π)`. -/
theorem n2_mem (a : ℝ) : 0 ≤ n2 a ∧ n2 a < 2 * Real.pi := by
  have h2pi : (0 : ℝ) < 2 * Real.pi := by positivity
  rw [n2_eq_fract]
  constructor
  · exact mul_nonneg h2pi.le (Int.fract_nonneg _)
  · have := Int.fract_lt_one (a / (2 * Real.pi))
    nlinarith

/-- `n2` is invariant under shifts by whole turns. -/
theorem n2_add_int_turns (a : ℝ) (k : ℤ) : n2 (a + 2 * Real.pi * k) = n2 a := by
  have h2pi : (0 : ℝ) < 2 * Real.pi := by positivity
  rw [n2_eq_fract, n2_eq_fract]
  have hdiv : (a + 2 * Real.pi * k) / (2 * Real.pi) = a / (2 * Real.pi) + k := by
    field_simp
    ring
  rw [hdiv, Int.fract_add_int]

/-- The truncated remainder has magnitude below the (positive) modulus. -/
theorem abs_jsMod_lt (x n : ℝ) (hn : 0 < n) : |jsMod x n| < n := by
  rw [jsMod, jsTrunc, abs_lt]
  by_cases h0 : 0 ≤ x / n
  · rw [if_pos h0]
    have h1 : (⌊x / n⌋ : ℝ) ≤ x / n := Int.floor_le _
    have h2 : x / n < ⌊x / n⌋ + 1 := Int.lt_floor_add_one _
    have hx : x = n * (x / n) := by field_simp
    constructor <;> nlinarith
  · rw [if_neg h0]
    have h1 : x / n ≤ (⌈x / n⌉ : ℝ) := Int.le_ceil _
    have h2 : (⌈x / n⌉ : ℝ) < x / n + 1 := Int.ceil_lt_add_one _
    have hx : x = n * (x / n) := by field_simp
    constructor <;> nlinarith

/-- Claim C5: the angle-reduction function `n2` maps every real input into
`[0, 2π)` and is invariant under adding any whole number of turns `2π·k`. -/
theorem n2_range_and_periodic (a : ℝ) :
    (0 ≤ n2 a ∧ n2 a < 2 * Real.pi) ∧
      ∀ k : ℤ, n2 (a + 2 * Real.pi * k) = n2 a :=
  ⟨n2_mem a, fun k => n2_add_int_turns a k⟩

/-- Claim C4, counterexample: at the Unix epoch (`d = 0`, an instant with a
negative century count `t = -0.3`) the mean-longitude reduction site
`L0 = (...) % 360` yields a negative value, so that `%` site is not a
floor-style modulo into `[0°, 360°)`. -/
theorem L0_reduction_negative_at_epoch : L0 (T (jd 0)) < 0 := by
  have ht : T (jd 0) = -(3 / 10) := by
    rw [T, jd]
    norm_num
  rw [ht, L0]
  have hceil :
      jsTrunc ((280.46646 + -(3 / 10) * (36000.76983 + 0.0003032 * -(3 / 10))) / 360)
        = -29 := by
    rw [jsTrunc, if_neg (by norm_num)]
    rw [Int.ceil_eq_iff]
    constructor <;> push_cast <;> norm_num
  rw [jsMod, hceil]
  push_cast
  norm_num

/-- Claim C4 (amended): the `n2` reduction sites — right ascension, GMST and
(as used to build the hour angle) any difference of them — map into `[0, 2π)`
for every instant, including instants before J2000; the two JS `%` sites
produce a representative congruent to the input modulo 360° of magnitude
below 360°, but that representative is negative for negative operands
(truncation-style, not floor-style), as witnessed at the Unix epoch. -/
theorem angle_reduction_sites (d x : ℝ) :
    (0 ≤ (solarRAdecAndGMST d).ra ∧ (solarRAdecAndGMST d).ra < 2 * Real.pi) ∧
    (0 ≤ (solarRAdecAndGMST d).GMST ∧
      (solarRAdecAndGMST d).GMST < 2 * Real.pi) ∧
    (0 ≤ n2 ((solarRAdecAndGMST d).GMST - (solarRAdecAndGMST d).ra) ∧
      n2 ((solarRAdecAndGMST d).GMST - (solarRAdecAndGMST d).ra)
        < 2 * Real.pi) ∧
    (∃ k : ℤ, jsMod x 360 = x - 360 * k) ∧ |jsMod x 360| < 360 := by
  refine ⟨?_, ?_, n2_mem _, ⟨jsTrunc (x / 360), rfl⟩, abs_jsMod_lt x 360 (by norm_num)⟩
  · show 0 ≤ raOf (T (jd d)) ∧ raOf (T (jd d)) < 2 * Real.pi
    rw [raOf]
    exact n2_mem _
  · show 0 ≤ n2 (GMSTdeg (jd d) (T (jd d)) * DEG) ∧
      n2 (GMSTdeg (jd d) (T (jd d)) * DEG) < 2 * Real.pi
    exact n2_mem _

/-- The square-sum of the pre-normalization Earth-fixed sun vector is 1 for
any declination and hour angle. -/
theorem sunVec_component_sq_sum (dec Hg : ℝ) :
    Real.cos dec * Real.cos Hg * (Real.cos dec * Real.cos Hg)
      + Real.sin dec * Real.sin dec
      + Real.cos dec * Real.sin Hg * (Real.cos dec * Real.sin Hg) = 1 := by
  have h1 := Real.sin_sq_add_cos_sq dec
  have h2 := Real.sin_sq_add_cos_sq Hg
  nlinarith [h1, h2]

/-- `normalize3` preserves a vector that already has unit length. -/
theorem norm3_normalize3_of_unit (v : Vec3) (h : norm3 v = 1) :
    norm3 (normalize3 v) = 1 := by
  rw [normalize3, if_neg (by rw [h]; norm_num), h]
  have hs : smul3 (1 / 1) v = v := by
    simp [smul3]
  rw [hs, h]

/-- Claim C1: for every instant `d`, the Earth-fixed sun direction
`sunVec_EarthFixed(d)` is a unit vector — its Euclidean norm is exactly 1 in
the real model (hence within floating tolerance of 1). -/
theorem sunVec_EarthFixed_unit (d : ℝ) : norm3 (sunVec_EarthFixed d) = 1 := by
  rw [sunVec_EarthFixed]
  apply norm3_normalize3_of_unit
  rw [norm3, sunVec_component_sq_sum, Real.sqrt_one]

/-- A point produced by the spherical conversion has norm `r` when `r ≥ 0`. -/
theorem norm3_spherical (lat lon r : ℝ) (hr : 0 ≤ r) :
    norm3 ⟨r * Real.cos lat * Real.cos lon, r * Real.sin lat,
      r * Real.cos lat * Real.sin lon⟩ = r := by
  rw [norm3]
  show Real.sqrt (r * Real.cos lat * Real.cos lon * (r * Real.cos lat * Real.cos lon)
    + r * Real.sin lat * (r * Real.sin lat)
    + r * Real.cos lat * Real.sin lon * (r * Real.cos lat * Real.sin lon)) = r
  rw [show r * Real.cos lat * Real.cos lon * (r * Real.cos lat * Real.cos lon)
      + r * Real.sin lat * (r * Real.sin lat)
      + r * Real.cos lat * Real.sin lon * (r * Real.cos lat * Real.sin lon) = r ^ 2 from by
    linear_combination (r ^ 2 * Real.cos lat ^ 2) * Real.sin_sq_add_cos_sq lon
      + r ^ 2 * Real.sin_sq_add_cos_sq lat]
  exact Real.sqrt_sq hr

/-- Claim C6: `latLonToVec3` lands on the sphere of radius `r` for all valid
latitudes and longitudes; `(0°, 0°)` and `(0°, 180°)` map to antipodal
equatorial points; and the Delhi marker at radius 1.517 recovers its
longitude `77.2088°` exactly through `atan2(-z, x)`. -/
theorem latLonToVec3_props :
    (∀ lat lon r : ℝ, -90 ≤ lat → lat ≤ 90 → -180 ≤ lon → lon ≤ 180 →
      0 ≤ r → norm3 (latLonToVec3 lat lon r) = r) ∧
    (∀ r : ℝ, latLonToVec3 0 180 r = smul3 (-1) (latLonToVec3 0 0 r) ∧
      (latLonToVec3 0 0 r).y = 0 ∧ (latLonToVec3 0 180 r).y = 0) ∧
    atan2 (-(latLonToVec3 28.6139 77.2088 1.517).z)
        ((latLonToVec3 28.6139 77.2088 1.517).x)
      = degToRad 77.2088 := by
  refine ⟨?_, ?_, ?_⟩
  · intro lat lon r _ _ _ _ hr
    simp only [latLonToVec3]
    exact norm3_spherical (degToRad lat) (-degToRad lon) r hr
  · intro r
    have hlat : degToRad 0 = 0 := by rw [degToRad]; ring
    have hlon : degToRad 180 = Real.pi := by rw [degToRad]; ring
    refine ⟨?_, ?_, ?_⟩
    · simp only [latLonToVec3, smul3, hlat, hlon, neg_zero, Real.cos_neg,
        Real.sin_neg, Real.cos_zero, Real.sin_zero, Real.cos_pi, Real.sin_pi,
        Vec3.mk.injEq]
      refine ⟨by ring, by ring, by ring⟩
    · simp only [latLonToVec3, hlat, Real.sin_zero]
      show r * 0 = 0
      ring
    · simp only [latLonToVec3, hlat, Real.sin_zero]
      show r * 0 = 0
      ring
  · have hpi : (0 : ℝ) < Real.pi := Real.pi_pos
    have hlat_lt : degToRad 28.6139 < Real.pi / 2 := by
      rw [degToRad]; nlinarith
    have hlat_pos : 0 < degToRad 28.6139 := by
      rw [degToRad]; positivity
    have hlon_lt : degToRad 77.2088 < Real.pi / 2 := by
      rw [degToRad]; nlinarith
    have hlon_pos : 0 < degToRad 77.2088 := by
      rw [degToRad]; positivity
    have hclat : 0 < Real.cos (degToRad 28.6139) :=
      Real.cos_pos_of_mem_Ioo ⟨by linarith, hlat_lt⟩
    have hclon : 0 < Real.cos (degToRad 77.2088) :=
      Real.cos_pos_of_mem_Ioo ⟨by linarith, hlon_lt⟩
    have hx : 0 < (latLonToVec3 28.6139 77.2088 1.517).x := by
      simp only [latLonToVec3]
      show 0 < 1.517 * Real.cos (degToRad 28.6139) * Real.cos (-degToRad 77.2088)
      rw [Real.cos_neg]
      positivity
    rw [atan2, if_pos hx]
    have hz : -(latLonToVec3 28.6139 77.2088 1.517).z
        = 1.517 * Real.cos (degToRad 28.6139) * Real.sin (degToRad 77.2088) := by
      simp only [latLonToVec3]
      show -(1.517 * Real.cos (degToRad 28.6139) * Real.sin (-degToRad 77.2088))
        = 1.517 * Real.cos (degToRad 28.6139) * Real.sin (degToRad 77.2088)
      rw [Real.sin_neg]
      ring
    have hxe : (latLonToVec3 28.6139 77.2088 1.517).x
        = 1.517 * Real.cos (degToRad 28.6139) * Real.cos (degToRad 77.2088) := by
      simp only [latLonToVec3]
      show 1.517 * Real.cos (degToRad 28.6139) * Real.cos (-degToRad 77.2088)
        = 1.517 * Real.cos (degToRad 28.6139) * Real.cos (degToRad 77.2088)
      rw [Real.cos_neg]
    rw [hz, hxe]
    have hratio : 1.517 * Real.cos (degToRad 28.6139) * Real.sin (degToRad 77.2088)
        / (1.517 * Real.cos (degToRad 28.6139) * Real.cos (degToRad 77.2088))
        = Real.tan (degToRad 77.2088) := by
      rw [Real.tan_eq_sin_div_cos]
      field_simp
      ring
    rw [hratio]
    exact Real.arctan_tan (by linarith) hlon_lt

/-- Witness for claim C6 at a concrete input. -/
theorem latLonToVec3_props_witness : norm3 (latLonToVec3 0 0 2) = 2 :=
  latLonToVec3_props.1 0 0 2 (by norm_num) (by norm_num) (by norm_num)
    (by norm_num) (by norm_num)

/-- Claim C7: the flight duration computed when a flight starts equals
`clamp(0.7 + 0.35·distance, 1.0, 3.0)` seconds, which is exactly `1.0` for
zero distance and exactly `3.0` for any distance at least `46/7`. -/
theorem pilot_duration (p : PilotState) (target camPos : Vec3) (now : ℝ) :
    (pilotStart p target camPos now).duration
      = clamp (0.7 + dist3 camPos
          (smul3 (GLOBE_RADIUS + 0.09) (normalize3 target)) * 0.35) 1.0 3.0 ∧
    (dist3 camPos (smul3 (GLOBE_RADIUS + 0.09) (normalize3 target)) = 0 →
      (pilotStart p target camPos now).duration = 1.0) ∧
    (46 / 7 ≤ dist3 camPos (smul3 (GLOBE_RADIUS + 0.09) (normalize3 target)) →
      (pilotStart p target camPos now).duration = 3.0) := by
  refine ⟨rfl, fun h0 => ?_, fun hbig => ?_⟩
  · show clamp (0.7 + dist3 camPos
        (smul3 (GLOBE_RADIUS + 0.09) (normalize3 target)) * 0.35) 1.0 3.0 = 1.0
    rw [h0, clamp]
    norm_num
  · show clamp (0.7 + dist3 camPos
        (smul3 (GLOBE_RADIUS + 0.09) (normalize3 target)) * 0.35) 1.0 3.0 = 3.0
    rw [clamp, min_eq_left (by nlinarith), max_eq_right (by norm_num)]

/-- Witness for claim C7: a zero-distance flight gets the 1.0 s floor and a
98.41-unit flight gets the 3.0 s ceiling. -/
theorem pilot_duration_witness :
    (pilotStart ⟨none, none, none, 0, 1.2, false, false⟩
      ⟨0, 0, 1⟩ ⟨0, 0, 1.59⟩ 0).duration = 1.0 ∧
    (pilotStart ⟨none, none, none, 0, 1.2, false, false⟩
      ⟨0, 0, 1⟩ ⟨0, 0, 100⟩ 0).duration = 3.0 := by
  have hn : normalize3 ⟨0, 0, 1⟩ = ⟨0, 0, 1⟩ := by
    have hl : norm3 ⟨0, 0, 1⟩ = 1 := by
      rw [norm3]
      show Real.sqrt ((0 : ℝ) * 0 + 0 * 0 + 1 * 1) = 1
      rw [show ((0 : ℝ) * 0 + 0 * 0 + 1 * 1) = 1 by norm_num, Real.sqrt_one]
    rw [normalize3]
    simp only [hl, one_ne_zero, if_false]
    rw [smul3]
    norm_num
  have hend : smul3 (GLOBE_RADIUS + 0.09) (normalize3 ⟨0, 0, 1⟩)
      = ⟨0, 0, 1.59⟩ := by
    rw [hn, smul3, GLOBE_RADIUS]
    norm_num
  constructor
  · apply (pilot_duration ⟨none, none, none, 0, 1.2, false, false⟩
      ⟨0, 0, 1⟩ ⟨0, 0, 1.59⟩ 0).2.1
    rw [hend, dist3]
    norm_num
  · apply (pilot_duration ⟨none, none, none, 0, 1.2, false, false⟩
      ⟨0, 0, 1⟩ ⟨0, 0, 100⟩ 0).2.2
    rw [hend, dist3]
    have hs : ((0 : ℝ) - 0) * (0 - 0) + (0 - 0) * (0 - 0)
        + (100 - 1.59) * (100 - 1.59) = 98.41 ^ 2 := by norm_num
    rw [hs, Real.sqrt_sq (by norm_num)]
    norm_num

/-- The clamped smoothstep parameter lies in `[0, 1]`. -/
theorem clamp01_mem (v : ℝ) : 0 ≤ clamp v 0 1 ∧ clamp v 0 1 ≤ 1 := by
  rw [clamp]
  constructor
  · exact le_max_left 0 _
  · rw [max_le_iff]
    exact ⟨by norm_num, min_le_left 1 v⟩

/-- `clamp` into `[0, 1]` is monotone in its value argument. -/
theorem clamp01_mono {a b : ℝ} (h : a ≤ b) : clamp a 0 1 ≤ clamp b 0 1 := by
  rw [clamp, clamp]
  exact max_le_max le_rfl (min_le_min le_rfl h)

/-- The smoothstep cubic is monotone on `[0, 1]`. -/
theorem cubic_mono {a b : ℝ} (h0 : 0 ≤ a) (hab : a ≤ b) (h1 : b ≤ 1) :
    a * a * (3 - 2 * a) ≤ b * b * (3 - 2 * b) := by
  nlinarith [mul_nonneg (sub_nonneg.2 hab) (sub_nonneg.2 h1),
    mul_nonneg h0 (sub_nonneg.2 hab), mul_nonneg (mul_nonneg h0 h0) (sub_nonneg.2 hab),
    mul_nonneg (mul_nonneg (sub_nonneg.2 hab) (sub_nonneg.2 h1)) h0,
    mul_nonneg (mul_nonneg (sub_nonneg.2 hab) (sub_nonneg.2 hab)) (sub_nonneg.2 h1)]

/-- The day amount lies in `[0, 1]` for every cosine `k`. -/
theorem dayAmt_mem (k : ℝ) : 0 ≤ dayAmt k ∧ dayAmt k ≤ 1 := by
  rw [dayAmt, smoothstep]
  obtain ⟨h0, h1⟩ := clamp01_mem ((k - -0.15) / (0.15 - -0.15))
  set t := clamp ((k - -0.15) / (0.15 - -0.15)) 0 1
  constructor
  · nlinarith
  · nlinarith [sq_nonneg (1 - t), mul_nonneg (sub_nonneg.2 h1) (sub_nonneg.2 h1)]

/-- Claim C8: the day fraction `smoothstep(-0.15, 0.15, k)` equals 1 when the
normal faces the sun (`k = 1`), equals 0 when it faces away (`k = -1`), and is
a continuous and monotone (non-decreasing) function of `k` on all of ℝ. -/
theorem dayAmt_terminator_profile :
    dayAmt 1 = 1 ∧ dayAmt (-1) = 0 ∧ Continuous dayAmt ∧ Monotone dayAmt := by
  refine ⟨?_, ?_, ?_, ?_⟩
  · rw [dayAmt, smoothstep]
    rw [show clamp ((1 - -0.15) / (0.15 - -0.15)) 0 1 = 1 by
      rw [clamp, min_eq_left (by norm_num), max_eq_right (by norm_num)]]
    norm_num
  · rw [dayAmt, smoothstep]
    rw [show clamp ((-1 - -0.15) / (0.15 - -0.15)) 0 1 = 0 by
      rw [clamp, min_eq_right (by norm_num), max_eq_left (by norm_num)]]
    norm_num
  · have hg : Continuous fun k : ℝ => clamp ((k - -0.15) / (0.15 - -0.15)) 0 1 := by
      apply Continuous.max continuous_const
      exact Continuous.min continuous_const ((continuous_id.sub continuous_const).div_const _)
    have he : dayAmt = fun k : ℝ =>
        clamp ((k - -0.15) / (0.15 - -0.15)) 0 1
          * clamp ((k - -0.15) / (0.15 - -0.15)) 0 1
          * (3 - 2 * clamp ((k - -0.15) / (0.15 - -0.15)) 0 1) := by
      funext k
      rw [dayAmt, smoothstep]
    rw [he]
    exact ((hg.mul hg).mul (continuous_const.sub (continuous_const.mul hg)))
  · intro a b hab
    rw [dayAmt, dayAmt, smoothstep, smoothstep]
    have hmono : clamp ((a - -0.15) / (0.15 - -0.15)) 0 1
        ≤ clamp ((b - -0.15) / (0.15 - -0.15)) 0 1 :=
      clamp01_mono ((div_le_div_iff_of_pos_right (by norm_num)).mpr (by linarith))
    exact cubic_mono (clamp01_mem _).1 hmono (clamp01_mem _).2

/-- Claim C10: with the shipped ambient 0.1 the two texture weights of the
`earthFS` blend sum to exactly 1 for every `k`, so each output channel is a
convex combination of the day and night texel channels and stays in `[0, 1]`
whenever both inputs do. -/
theorem blend_convexity (k dC nC : ℝ) :
    dayWeight k + nightWeight k = 1 ∧
    (0 ≤ dC → dC ≤ 1 → 0 ≤ nC → nC ≤ 1 →
      0 ≤ blendChannel dC nC k ∧ blendChannel dC nC k ≤ 1) := by
  obtain ⟨hd0, hd1⟩ := dayAmt_mem k
  constructor
  · rw [dayWeight, nightWeight, AMBIENT]
    ring
  · intro h1 h2 h3 h4
    rw [blendChannel, AMBIENT]
    constructor
    · nlinarith
    · nlinarith [mul_nonneg (sub_nonneg.2 h2) hd0, mul_nonneg (sub_nonneg.2 h4) (sub_nonneg.2 hd1),
        mul_nonneg (sub_nonneg.2 h2) (sub_nonneg.2 hd1)]

/-- Witness for claim C10 at a concrete input. -/
theorem blend_convexity_witness :
    dayWeight 0 + nightWeight 0 = 1 ∧
      0 ≤ blendChannel 0.5 0.5 0 ∧ blendChannel 0.5 0.5 0 ≤ 1 :=
  ⟨(blend_convexity 0 0.5 0.5).1,
   ((blend_convexity 0 0.5 0.5).2 (by norm_num) (by norm_num) (by norm_num)
     (by norm_num)).1,
   ((blend_convexity 0 0.5 0.5).2 (by norm_num) (by norm_num) (by norm_num)
     (by norm_num)).2⟩

/-- A frame of an active pilot (flying, all refs set) computes the eased
position, the distance test, and the flag updates of the source. -/
theorem pilotFrame_active (cam sp ep la : Vec3) (t0 dur : ℝ) (faded : Bool)
    (now : ℝ) :
    pilotFrame ⟨cam, ⟨some sp, some ep, some la, t0, dur, true, faded⟩⟩ now
      = (⟨lerp3 sp ep (if (now - t0) / (dur * 1000) ≤ 0 then 0
            else if 1 ≤ (now - t0) / (dur * 1000) then 1
            else (now - t0) / (dur * 1000) * ((now - t0) / (dur * 1000))
              * (3 - 2 * ((now - t0) / (dur * 1000)))),
          ⟨some sp, some ep, some la, t0, dur,
            if 1 ≤ (if (now - t0) / (dur * 1000) ≤ 0 then (0 : ℝ)
              else if 1 ≤ (now - t0) / (dur * 1000) then 1
              else (now - t0) / (dur * 1000) * ((now - t0) / (dur * 1000))
                * (3 - 2 * ((now - t0) / (dur * 1000)))) then false else true,
            if !faded && decide (dist3 (lerp3 sp ep
                (if (now - t0) / (dur * 1000) ≤ 0 then 0
                 else if 1 ≤ (now - t0) / (dur * 1000) then 1
                 else (now - t0) / (dur * 1000) * ((now - t0) / (dur * 1000))
                   * (3 - 2 * ((now - t0) / (dur * 1000))))) ep < 0.65)
            then true else faded⟩⟩,
         !faded && decide (dist3 (lerp3 sp ep
            (if (now - t0) / (dur * 1000) ≤ 0 then 0
             else if 1 ≤ (now - t0) / (dur * 1000) then 1
             else (now - t0) / (dur * 1000) * ((now - t0) / (dur * 1000))
               * (3 - 2 * ((now - t0) / (dur * 1000))))) ep < 0.65)) := rfl

/-- A frame of a non-flying pilot is a no-op that fires nothing. -/
theorem pilotFrame_notflying (c : CamState) (now : ℝ)
    (h : c.pilot.flying = false) : pilotFrame c now = (c, false) := by
  rcases c with ⟨cam, ⟨sp, ep, la, t0, dur, flying, faded⟩⟩
  cases flying
  · rfl
  · simp at h

/-- The clamped-and-eased interpolation parameter always lies in `[0, 1]`. -/
theorem ease_mem (tt : ℝ) :
    0 ≤ (if tt ≤ 0 then (0 : ℝ) else if 1 ≤ tt then 1
      else tt * tt * (3 - 2 * tt)) ∧
    (if tt ≤ 0 then (0 : ℝ) else if 1 ≤ tt then 1
      else tt * tt * (3 - 2 * tt)) ≤ 1 := by
  split_ifs with h1 h2
  · norm_num
  · norm_num
  · push_neg at h1 h2
    constructor
    · nlinarith
    · nlinarith [sq_nonneg (1 - tt)]

/-- Interpolating all the way lands exactly on the destination. -/
theorem lerp3_one (a b : Vec3) : lerp3 a b 1 = b := by
  rcases b with ⟨p, q, s⟩
  rw [lerp3]
  simp only [Vec3.mk.injEq]
  refine ⟨by ring, by ring, by ring⟩

/-- The distance from a point to itself is zero. -/
theorem dist3_self (a : Vec3) : dist3 a a = 0 := by
  rw [dist3]
  rw [show (a.x - a.x) * (a.x - a.x) + (a.y - a.y) * (a.y - a.y)
      + (a.z - a.z) * (a.z - a.z) = 0 by ring]
  exact Real.sqrt_zero

/-- When the eased parameter has reached 1, the frame's distance test passes
(the camera is exactly at the destination). -/
theorem pilotHit_of_ease_complete (sp ep : Vec3) (t0 dur now : ℝ)
    (h : 1 ≤ (if (now - t0) / (dur * 1000) ≤ 0 then (0 : ℝ)
      else if 1 ≤ (now - t0) / (dur * 1000) then 1
      else (now - t0) / (dur * 1000) * ((now - t0) / (dur * 1000))
        * (3 - 2 * ((now - t0) / (dur * 1000))))) :
    pilotHit sp ep t0 dur now = true := by
  have he : (if (now - t0) / (dur * 1000) ≤ 0 then (0 : ℝ)
      else if 1 ≤ (now - t0) / (dur * 1000) then 1
      else (now - t0) / (dur * 1000) * ((now - t0) / (dur * 1000))
        * (3 - 2 * ((now - t0) / (dur * 1000)))) = 1 :=
    le_antisymm (ease_mem _).2 h
  rw [pilotHit]
  simp only [he, lerp3_one, dist3_self]
  norm_num

/-- Once the arrival flag is set, no later frame ever fires again, whatever
the flag and ref fields hold. -/
theorem pilotRun_faded (cam : Vec3) (sp ep la : Option Vec3) (t0 dur : ℝ)
    (flying : Bool) (times : List ℝ) :
    pilotRun ⟨cam, ⟨sp, ep, la, t0, dur, flying, true⟩⟩ times
      = times.map (fun _ => false) := by
  induction times generalizing cam sp ep la t0 dur flying with
  | nil => rfl
  | cons t ts ih =>
    rcases sp with _ | sp <;> rcases ep with _ | ep <;> rcases la with _ | la <;>
      cases flying <;>
      simp only [pilotRun, pilotFrame, Bool.not_true, Bool.false_and,
        Bool.false_eq_true, if_false, Bool.and_true, List.map_cons] <;>
      simp [ih]

/-- A started flight fires exactly along the first-threshold-crossing
pattern: the run of an active, un-fired flight equals `firstTrue` of the
per-frame distance tests. -/
theorem pilotRun_active (cam sp ep la : Vec3) (t0 dur : ℝ) (times : List ℝ) :
    pilotRun ⟨cam, ⟨some sp, some ep, some la, t0, dur, true, false⟩⟩ times
      = firstTrue (times.map (pilotHit sp ep t0 dur)) := by
  induction times generalizing cam with
  | nil => rfl
  | cons t ts ih =>
    have hstep := pilotFrame_active cam sp ep la t0 dur false t
    rw [List.map_cons, firstTrue]
    by_cases hhit : pilotHit sp ep t0 dur t = true
    · rw [if_pos hhit, pilotRun]
      simp only [hstep, Bool.not_false, Bool.true_and]
      rw [show decide (dist3 (lerp3 sp ep
          (if (t - t0) / (dur * 1000) ≤ 0 then 0
           else if 1 ≤ (t - t0) / (dur * 1000) then 1
           else (t - t0) / (dur * 1000) * ((t - t0) / (dur * 1000))
             * (3 - 2 * ((t - t0) / (dur * 1000))))) ep < 0.65) = true
        from hhit]
      simp only [if_true, List.map_map]
      rw [pilotRun_faded]
      rfl
    · have hhitf : pilotHit sp ep t0 dur t = false := by
        cases hb : pilotHit sp ep t0 dur t
        · rfl
        · exact absurd hb hhit
      rw [if_neg (by rw [hhitf]; exact Bool.false_ne_true), pilotRun]
      simp only [hstep, Bool.not_false, Bool.true_and]
      rw [show decide (dist3 (lerp3 sp ep
          (if (t - t0) / (dur * 1000) ≤ 0 then 0
           else if 1 ≤ (t - t0) / (dur * 1000) then 1
           else (t - t0) / (dur * 1000) * ((t - t0) / (dur * 1000))
             * (3 - 2 * ((t - t0) / (dur * 1000))))) ep < 0.65) = false
        from hhitf]
      have hlt : ¬ (1 ≤ (if (t - t0) / (dur * 1000) ≤ 0 then (0 : ℝ)
          else if 1 ≤ (t - t0) / (dur * 1000) then 1
          else (t - t0) / (dur * 1000) * ((t - t0) / (dur * 1000))
            * (3 - 2 * ((t - t0) / (dur * 1000))))) := by
        intro hge
        rw [pilotHit_of_ease_complete sp ep t0 dur t hge] at hhitf
        simp at hhitf
      rw [if_neg hlt]
      simp only [if_false, Bool.false_eq_true]
      rw [ih]

/-- The first-crossing pattern contains at most one firing; it contains
exactly one iff some frame crosses the threshold. -/
theorem firstTrue_count (l : List Bool) :
    (firstTrue l).count true = (if l.any (fun b => b) then 1 else 0) := by
  induction l with
  | nil => rfl
  | cons b bs ih =>
    cases b
    · rw [firstTrue, if_neg (by simp), List.any_cons]
      simp only [Bool.false_or, List.count_cons]
      rw [ih]
      simp
    · rw [firstTrue, if_pos rfl, List.any_cons]
      simp only [Bool.true_or, List.count_cons]
      simp [List.count_replicate]

/-- Claim C3: over any single flight (from the frame the target point is set
until flight end or a new target), the arrival callback fires exactly at the
first per-frame update whose camera-to-destination distance drops below 0.65
and at no other update — the flag guard makes later crossings silent, time
completion never fires by itself (the firing list is exactly the
first-crossing pattern of the pure distance tests), and the callback runs
exactly once over the flight iff some update crosses the threshold. -/
theorem pilot_arrival_once (p : PilotState) (target camPos : Vec3)
    (now₀ : ℝ) (times : List ℝ) :
    pilotRun ⟨camPos, pilotStart p target camPos now₀⟩ times
      = firstTrue (times.map (pilotHit camPos
          (smul3 (GLOBE_RADIUS + 0.09) (normalize3 target)) now₀
          (pilotStart p target camPos now₀).duration)) ∧
    (pilotRun ⟨camPos, pilotStart p target camPos now₀⟩ times).count true
      = (if (times.map (pilotHit camPos
          (smul3 (GLOBE_RADIUS + 0.09) (normalize3 target)) now₀
          (pilotStart p target camPos now₀).duration)).any (fun b => b)
         then 1 else 0) := by
  have hrun : pilotRun ⟨camPos, pilotStart p target camPos now₀⟩ times
      = firstTrue (times.map (pilotHit camPos
          (smul3 (GLOBE_RADIUS + 0.09) (normalize3 target)) now₀
          (pilotStart p target camPos now₀).duration)) := by
    rcases p with ⟨sp0, ep0, la0, t00, dur0, fl0, fd0⟩
    exact pilotRun_active camPos camPos
      (smul3 (GLOBE_RADIUS + 0.09) (normalize3 target)) target now₀ _ times
  exact ⟨hrun, by rw [hrun, firstTrue_count]⟩

/-- Normalizing a vector of positive square-norm yields a unit vector (in the
`dot3` sense). -/
theorem dot3_normalize3 (v : Vec3) (h : 0 < dot3 v v) :
    dot3 (normalize3 v) (normalize3 v) = 1 := by
  obtain ⟨vx, vy, vz⟩ := v
  simp only [dot3] at h ⊢
  have hl : norm3 ⟨vx, vy, vz⟩ = Real.sqrt (vx * vx + vy * vy + vz * vz) := rfl
  have hlpos : 0 < norm3 ⟨vx, vy, vz⟩ := by
    rw [hl]
    exact Real.sqrt_pos.mpr h
  have hll : norm3 ⟨vx, vy, vz⟩ * norm3 ⟨vx, vy, vz⟩ = vx * vx + vy * vy + vz * vz := by
    rw [hl]
    exact Real.mul_self_sqrt h.le
  rw [normalize3, if_neg (ne_of_gt hlpos)]
  show 1 / norm3 ⟨vx, vy, vz⟩ * vx * (1 / norm3 ⟨vx, vy, vz⟩ * vx)
      + 1 / norm3 ⟨vx, vy, vz⟩ * vy * (1 / norm3 ⟨vx, vy, vz⟩ * vy)
      + 1 / norm3 ⟨vx, vy, vz⟩ * vz * (1 / norm3 ⟨vx, vy, vz⟩ * vz) = 1
  have hne : norm3 ⟨vx, vy, vz⟩ ≠ 0 := ne_of_gt hlpos
  field_simp
  linarith [hll]

/-- The fixed world sun direction is a unit vector. -/
theorem SUN_W_dot_one : dot3 SUN_W SUN_W = 1 := by
  rw [SUN_W]
  apply dot3_normalize3
  rw [dot3]
  norm_num

/-- The Earth-fixed sun direction is a unit vector in the `dot3` sense. -/
theorem sunVec_dot_one (d : ℝ) :
    dot3 (sunVec_EarthFixed d) (sunVec_EarthFixed d) = 1 := by
  simp only [sunVec_EarthFixed]
  apply dot3_normalize3
  rw [dot3]
  show 0 < Real.cos (solarRAdecAndGMST d).dec
        * Real.cos (n2 ((solarRAdecAndGMST d).GMST - (solarRAdecAndGMST d).ra))
        * (Real.cos (solarRAdecAndGMST d).dec
          * Real.cos (n2 ((solarRAdecAndGMST d).GMST - (solarRAdecAndGMST d).ra)))
      + Real.sin (solarRAdecAndGMST d).dec * Real.sin (solarRAdecAndGMST d).dec
      + Real.cos (solarRAdecAndGMST d).dec
        * Real.sin (n2 ((solarRAdecAndGMST d).GMST - (solarRAdecAndGMST d).ra))
        * (Real.cos (solarRAdecAndGMST d).dec
          * Real.sin (n2 ((solarRAdecAndGMST d).GMST - (solarRAdecAndGMST d).ra)))
  rw [sunVec_component_sq_sum]
  norm_num

/-- Generic branch of `setFromUnitVectors`: for unit vectors that are not
(nearly) antiparallel, applying the built rotation to `vFrom` yields `vTo`
exactly. -/
theorem applyQuaternion_setFromUnitVectors (u v : Vec3) (hu : dot3 u u = 1)
    (hv : dot3 v v = 1) (hnd : ¬ (dot3 u v + 1 < numberEpsilon)) :
    applyQuaternion (setFromUnitVectors u v) u = v := by
  obtain ⟨ux, uy, uz⟩ := u
  obtain ⟨vx, vy, vz⟩ := v
  simp only [dot3] at hu hv
  have heps : (0 : ℝ) < numberEpsilon := by rw [numberEpsilon]; positivity
  have hrpos : (0 : ℝ) < ux * vx + uy * vy + uz * vz + 1 := by
    have := not_lt.mp hnd
    rw [dot3] at this
    linarith [lt_of_lt_of_le heps this]
  simp only [setFromUnitVectors]
  rw [if_neg hnd]
  simp only [dot3]
  have hS : (uy * vz - uz * vy) * (uy * vz - uz * vy)
      + (uz * vx - ux * vz) * (uz * vx - ux * vz)
      + (ux * vy - uy * vx) * (ux * vy - uy * vx)
      + (ux * vx + uy * vy + uz * vz + 1) * (ux * vx + uy * vy + uz * vz + 1)
      = 2 * (ux * vx + uy * vy + uz * vz + 1) := by
    linear_combination (vx * vx + vy * vy + vz * vz) * hu + hv
  have hLdef : quatLength ⟨uy * vz - uz * vy, uz * vx - ux * vz,
      ux * vy - uy * vx, ux * vx + uy * vy + uz * vz + 1⟩
      = Real.sqrt ((uy * vz - uz * vy) * (uy * vz - uz * vy)
        + (uz * vx - ux * vz) * (uz * vx - ux * vz)
        + (ux * vy - uy * vx) * (ux * vy - uy * vx)
        + (ux * vx + uy * vy + uz * vz + 1) * (ux * vx + uy * vy + uz * vz + 1)) := rfl
  have hLpos : 0 < quatLength ⟨uy * vz - uz * vy, uz * vx - ux * vz,
      ux * vy - uy * vx, ux * vx + uy * vy + uz * vz + 1⟩ := by
    rw [hLdef, hS]
    exact Real.sqrt_pos.mpr (by linarith)
  have hL2 : quatLength ⟨uy * vz - uz * vy, uz * vx - ux * vz,
        ux * vy - uy * vx, ux * vx + uy * vy + uz * vz + 1⟩
      * quatLength ⟨uy * vz - uz * vy, uz * vx - ux * vz,
        ux * vy - uy * vx, ux * vx + uy * vy + uz * vz + 1⟩
      = 2 * (ux * vx + uy * vy + uz * vz + 1) := by
    rw [hLdef, Real.mul_self_sqrt (by rw [hS]; linarith), hS]
  rw [quatNormalize, if_neg (ne_of_gt hLpos)]
  simp only [applyQuaternion, Vec3.mk.injEq]
  set a := 1 / quatLength ⟨uy * vz - uz * vy, uz * vx - ux * vz,
      ux * vy - uy * vx, ux * vx + uy * vy + uz * vz + 1⟩ with hadef
  have ha : a * a * (2 * (ux * vx + uy * vy + uz * vz + 1)) = 1 := by
    rw [hadef, ← hL2]
    field_simp
  refine ⟨?_, ?_, ?_⟩
  · linear_combination (vx - ux) * ha
      + (2 * (a * a) * (ux * vx + uy * vy + uz * vz + 1) * vx
        - 2 * (a * a) * ux * (vx * vx + vy * vy + vz * vz)) * hu
      + (-(2 * (a * a) * ux)) * hv
  · linear_combination (vy - uy) * ha
      + (2 * (a * a) * (ux * vx + uy * vy + uz * vz + 1) * vy
        - 2 * (a * a) * uy * (vx * vx + vy * vy + vz * vz)) * hu
      + (-(2 * (a * a) * uy)) * hv
  · linear_combination (vz - uz) * ha
      + (2 * (a * a) * (ux * vx + uy * vy + uz * vz + 1) * vz
        - 2 * (a * a) * uz * (vx * vx + vy * vy + vz * vz)) * hu
      + (-(2 * (a * a) * uz)) * hv

/-- Antiparallel branch of `setFromUnitVectors`: the fallback 180° rotation
about an axis orthogonal to `vFrom` sends the unit vector `vFrom` exactly to
its negation. -/
theorem applyQuaternion_setFromUnitVectors_anti (u v : Vec3)
    (hu : dot3 u u = 1) (hnd : dot3 u v + 1 < numberEpsilon) :
    applyQuaternion (setFromUnitVectors u v) u = ⟨-u.x, -u.y, -u.z⟩ := by
  obtain ⟨ux, uy, uz⟩ := u
  simp only [dot3] at hu
  simp only [setFromUnitVectors]
  rw [if_pos hnd]
  by_cases hxz : |ux| > |uz|
  · rw [if_pos hxz]
    have hx0 : ux ≠ 0 := by
      intro h0
      rw [h0] at hxz
      simp at hxz
      exact absurd (abs_nonneg uz) (not_le.mpr (by simpa using hxz))
    have hA : 0 < -uy * -uy + ux * ux + 0 * 0 + 0 * 0 := by
      have := mul_self_pos.mpr hx0
      nlinarith [mul_self_nonneg uy]
    have hLdef : quatLength ⟨-uy, ux, 0, 0⟩
        = Real.sqrt (-uy * -uy + ux * ux + 0 * 0 + 0 * 0) := rfl
    have hLpos : 0 < quatLength ⟨-uy, ux, 0, 0⟩ := by
      rw [hLdef]
      exact Real.sqrt_pos.mpr hA
    have hL2 : quatLength ⟨-uy, ux, 0, 0⟩ * quatLength ⟨-uy, ux, 0, 0⟩
        = -uy * -uy + ux * ux + 0 * 0 + 0 * 0 := by
      rw [hLdef]
      exact Real.mul_self_sqrt hA.le
    rw [quatNormalize, if_neg (ne_of_gt hLpos)]
    simp only [applyQuaternion, Vec3.mk.injEq]
    set a := 1 / quatLength ⟨-uy, ux, 0, 0⟩ with hadef
    have ha : a * a * (uy * uy + ux * ux) = 1 := by
      rw [hadef, ← (by linear_combination hL2 :
        quatLength ⟨-uy, ux, 0, 0⟩ * quatLength ⟨-uy, ux, 0, 0⟩ = uy * uy + ux * ux)]
      field_simp
    refine ⟨?_, ?_, ?_⟩
    · linear_combination (-(2 * ux)) * ha
    · linear_combination (-(2 * uy)) * ha
    · linear_combination (-(2 * uz)) * ha
  · rw [if_neg hxz]
    have hyz0 : ¬ (uy = 0 ∧ uz = 0) := by
      rintro ⟨hy, hz⟩
      rw [hy, hz] at hu
      push_neg at hxz
      rw [hz] at hxz
      have hx1 : ux * ux = 1 := by linarith
      have : |ux| = 1 := by
        rw [← Real.sqrt_mul_self_eq_abs, hx1, Real.sqrt_one]
      simp only [abs_zero] at hxz
      rw [this] at hxz
      norm_num at hxz
    have hA : 0 < 0 * 0 + -uz * -uz + uy * uy + 0 * 0 := by
      rcases mul_self_nonneg uy |>.lt_or_eq with hy | hy
      · nlinarith [mul_self_nonneg uz]
      · rcases mul_self_nonneg uz |>.lt_or_eq with hz | hz
        · nlinarith
        · exfalso
          apply hyz0
          constructor
          · have := hy.symm
            nlinarith [mul_self_nonneg uy]
          · nlinarith [mul_self_nonneg uz]
    have hLdef : quatLength ⟨0, -uz, uy, 0⟩
        = Real.sqrt (0 * 0 + -uz * -uz + uy * uy + 0 * 0) := rfl
    have hLpos : 0 < quatLength ⟨0, -uz, uy, 0⟩ := by
      rw [hLdef]
      exact Real.sqrt_pos.mpr hA
    have hL2 : quatLength ⟨0, -uz, uy, 0⟩ * quatLength ⟨0, -uz, uy, 0⟩
        = 0 * 0 + -uz * -uz + uy * uy + 0 * 0 := by
      rw [hLdef]
      exact Real.mul_self_sqrt hA.le
    rw [quatNormalize, if_neg (ne_of_gt hLpos)]
    simp only [applyQuaternion, Vec3.mk.injEq]
    set a := 1 / quatLength ⟨0, -uz, uy, 0⟩ with hadef
    have ha : a * a * (uz * uz + uy * uy) = 1 := by
      rw [hadef, ← (by linear_combination hL2 :
        quatLength ⟨0, -uz, uy, 0⟩ * quatLength ⟨0, -uz, uy, 0⟩ = uz * uz + uy * uy)]
      field_simp
    refine ⟨?_, ?_, ?_⟩
    · linear_combination (-(2 * ux)) * ha
    · linear_combination (-(2 * uy)) * ha
    · linear_combination (-(2 * uz)) * ha

/-- Near-antiparallel unit vectors: the negation of one is within `2^(-25.5)`
(hence within `10⁻⁶`) of the other. -/
theorem dist3_neg_le (u v : Vec3) (hu : dot3 u u = 1) (hv : dot3 v v = 1)
    (hnd : dot3 u v + 1 < numberEpsilon) :
    dist3 ⟨-u.x, -u.y, -u.z⟩ v ≤ 1 / 1000000 := by
  obtain ⟨ux, uy, uz⟩ := u
  obtain ⟨vx, vy, vz⟩ := v
  simp only [dot3] at hu hv hnd
  rw [numberEpsilon] at hnd
  rw [dist3]
  show Real.sqrt ((-ux - vx) * (-ux - vx) + (-uy - vy) * (-uy - vy)
    + (-uz - vz) * (-uz - vz)) ≤ 1 / 1000000
  have hsum : (-ux - vx) * (-ux - vx) + (-uy - vy) * (-uy - vy)
      + (-uz - vz) * (-uz - vz)
      = 2 + 2 * (ux * vx + uy * vy + uz * vz) := by
    linear_combination hu + hv
  have hle : (-ux - vx) * (-ux - vx) + (-uy - vy) * (-uy - vy)
      + (-uz - vz) * (-uz - vz) ≤ (1 / 1000000) ^ 2 := by
    rw [hsum]
    have h52 : (2 : ℝ) / 2 ^ (52 : ℕ) ≤ (1 / 1000000) ^ 2 := by norm_num
    nlinarith
  calc Real.sqrt ((-ux - vx) * (-ux - vx) + (-uy - vy) * (-uy - vy)
        + (-uz - vz) * (-uz - vz))
      ≤ Real.sqrt ((1 / 1000000) ^ 2) := Real.sqrt_le_sqrt hle
    _ = 1 / 1000000 := Real.sqrt_sq (by norm_num)

/-- For any two unit vectors, the `setFromUnitVectors` rotation carries the
first to within `10⁻⁶` of the second (exactly onto it outside the
antiparallel fallback). -/
theorem rotation_roundtrip (u v : Vec3) (hu : dot3 u u = 1)
    (hv : dot3 v v = 1) :
    dist3 (applyQuaternion (setFromUnitVectors u v) u) v ≤ 1 / 1000000 := by
  by_cases hnd : dot3 u v + 1 < numberEpsilon
  · rw [applyQuaternion_setFromUnitVectors_anti u v hu hnd]
    exact dist3_neg_le u v hu hv hnd
  · rw [applyQuaternion_setFromUnitVectors u v hu hv hnd, dist3_self]
    norm_num

/-- Claim C2: each frame's rotation `setFromUnitVectors(s_e, SUN_W)` maps the
computed Earth-fixed sun direction onto the fixed world light direction
within floating tolerance (`10⁻⁶`; exactly, outside the antiparallel
fallback branch), while the frame update leaves the `uSunDir` value — the
process-lifetime constant `SUN_W` copy — untouched. -/
theorem orientation_sync_roundtrip (s : EarthState) (t0Sim t0Real now dt : ℝ) :
    (earthFrame s t0Sim t0Real now dt).uSunDir = s.uSunDir ∧
    dist3 (applyQuaternion (earthFrame s t0Sim t0Real now dt).baseQuat
        (sunVec_EarthFixed (simInstant t0Sim t0Real now))) SUN_W
      ≤ 1 / 1000000 := by
  constructor
  · rfl
  · have hq : (earthFrame s t0Sim t0Real now dt).baseQuat
        = setFromUnitVectors
            (sunVec_EarthFixed (simInstant t0Sim t0Real now)) SUN_W := rfl
    rw [hq]
    exact rotation_roundtrip _ _
      (sunVec_dot_one (simInstant t0Sim t0Real now)) SUN_W_dot_one

/-! ### Interval evaluation of the ephemeris at the two scenario instants -/

/-- Taylor lower bound for sine at a nonnegative argument below 1. -/
theorem sin_taylor_lb {q : ℝ} (h0 : 0 ≤ q) (hq : q ≤ 1) :
    q - q ^ 3 / 6 - q ^ 4 * (5 / 96) ≤ Real.sin q := by
  have h := abs_le.mp (Real.sin_bound (by rw [abs_of_nonneg h0]; exact hq))
  rw [abs_of_nonneg h0] at h
  linarith [h.1]

/-- Taylor upper bound for sine at a nonnegative argument below 1. -/
theorem sin_taylor_ub {q : ℝ} (h0 : 0 ≤ q) (hq : q ≤ 1) :
    Real.sin q ≤ q - q ^ 3 / 6 + q ^ 4 * (5 / 96) := by
  have h := abs_le.mp (Real.sin_bound (by rw [abs_of_nonneg h0]; exact hq))
  rw [abs_of_nonneg h0] at h
  linarith [h.2]

/-- Taylor lower bound for cosine at a nonnegative argument below 1. -/
theorem cos_taylor_lb {q : ℝ} (h0 : 0 ≤ q) (hq : q ≤ 1) :
    1 - q ^ 2 / 2 - q ^ 4 * (5 / 96) ≤ Real.cos q := by
  have h := abs_le.mp (Real.cos_bound (by rw [abs_of_nonneg h0]; exact hq))
  rw [abs_of_nonneg h0] at h
  linarith [h.1]

/-- Taylor upper bound for cosine at a nonnegative argument below 1. -/
theorem cos_taylor_ub {q : ℝ} (h0 : 0 ≤ q) (hq : q ≤ 1) :
    Real.cos q ≤ 1 - q ^ 2 / 2 + q ^ 4 * (5 / 96) := by
  have h := abs_le.mp (Real.cos_bound (by rw [abs_of_nonneg h0]; exact hq))
  rw [abs_of_nonneg h0] at h
  linarith [h.2]

/-- Bracketing a sine value through monotonicity on `[-π/2, π/2]`. -/
theorem sin_in_of_bracket {x lo hi slo shi : ℝ} (hlx : lo ≤ x) (hxh : x ≤ hi)
    (hlo2 : -(Real.pi / 2) ≤ lo) (hhi2 : hi ≤ Real.pi / 2)
    (hslo : slo ≤ Real.sin lo) (hshi : Real.sin hi ≤ shi) :
    slo ≤ Real.sin x ∧ Real.sin x ≤ shi :=
  ⟨le_trans hslo
      (Real.sin_le_sin_of_le_of_le_pi_div_two hlo2 (le_trans hxh hhi2) hlx),
   le_trans
      (Real.sin_le_sin_of_le_of_le_pi_div_two (le_trans hlo2 hlx) hhi2 hxh) hshi⟩

/-- Bracketing a cosine value through antitonicity on `[0, π]`. -/
theorem cos_in_of_bracket {x lo hi clo chi : ℝ} (hlx : lo ≤ x) (hxh : x ≤ hi)
    (hlo2 : 0 ≤ lo) (hhi2 : hi ≤ Real.pi)
    (hclo : clo ≤ Real.cos hi) (hchi : Real.cos lo ≤ chi) :
    clo ≤ Real.cos x ∧ Real.cos x ≤ chi :=
  ⟨le_trans hclo
      (Real.cos_le_cos_of_nonneg_of_le_pi (le_trans hlo2 hlx) hhi2 hxh),
   le_trans
      (Real.cos_le_cos_of_nonneg_of_le_pi hlo2 (le_trans hxh hhi2) hlx) hchi⟩

/-- The sine of the mean anomaly at the equinox instant, bracketed by
reduction to `cos(b·π)` with rational `b` and Taylor evaluation. -/
theorem equinox_sinM_bounds :
    0.96623 ≤ Real.sin (M (1769 / 7305) * DEG) ∧
      Real.sin (M (1769 / 7305) * DEG) ≤ 0.96672 := by
  have hpil := Real.pi_gt_d6
  have hpiu := Real.pi_lt_d6
  have hM : M (1769 / 7305) = 4842781816839630143 / 533630250000000 := by
    rw [M]; norm_num
  have hid : Real.sin (M (1769 / 7305) * DEG)
      = Real.cos (7917155660369857 / 96053445000000000 * Real.pi) := by
    rw [hM, DEG]
    rw [show (4842781816839630143 / 533630250000000 : ℝ) * (Real.pi / 180)
        = Real.pi / 2 - (7917155660369857 / 96053445000000000 * Real.pi
            + (-25 : ℤ) * (2 * Real.pi)) from by push_cast; ring]
    rw [Real.sin_pi_div_two_sub, Real.cos_add_int_mul_two_pi]
  rw [hid]
  have hxlo : (0.25894 : ℝ) ≤ 7917155660369857 / 96053445000000000 * Real.pi := by
    linarith
  have hxhi : (7917155660369857 / 96053445000000000 : ℝ) * Real.pi ≤ 0.25895 := by
    linarith
  exact cos_in_of_bracket hxlo hxhi (by norm_num)
    (by linarith)
    (le_trans (by norm_num) (cos_taylor_lb (q := 0.25895) (by norm_num) (by norm_num)))
    (le_trans (cos_taylor_ub (q := 0.25894) (by norm_num) (by norm_num)) (by norm_num))

set_option maxHeartbeats 1600000 in
/-- Near the March 2024 equinox the computed solar declination is below 1°
in magnitude. -/
theorem equinox_dec_bound :
    |decOf (T (jd 1710936000000))| ≤ Real.pi / 180 := by
  have ht : T (jd 1710936000000) = 1769 / 7305 := by
    rw [T, jd]; norm_num
  rw [ht, decOf]
  have hpil := Real.pi_gt_d6
  have hpiu := Real.pi_lt_d6
  have hL0 : L0 (1769 / 7305) = 47828929570702763 / 133407562500000 := by
    rw [L0, jsMod, jsTrunc, if_pos (by norm_num)]
    rw [show ⌊(280.46646 + 1769 / 7305 * (36000.76983 + 0.0003032 * (1769 / 7305))
          : ℝ) / 360⌋ = (24 : ℤ) from by
      rw [Int.floor_eq_iff]
      constructor <;> push_cast <;> norm_num]
    push_cast
    norm_num
  obtain ⟨hs1l, hs1u⟩ := equinox_sinM_bounds
  have hs2l := Real.neg_one_le_sin (2.0 * (M (1769 / 7305) * DEG))
  have hs2u := Real.sin_le_one (2.0 * (M (1769 / 7305) * DEG))
  have hs3l := Real.neg_one_le_sin (3.0 * (M (1769 / 7305) * DEG))
  have hs3u := Real.sin_le_one (3.0 * (M (1769 / 7305) * DEG))
  have hsOl := Real.neg_one_le_sin (Omega (1769 / 7305) * DEG)
  have hsOu := Real.sin_le_one (Omega (1769 / 7305) * DEG)
  have hC : 1.828 ≤ C (1769 / 7305) ∧ C (1769 / 7305) ≤ 1.871 := by
    rw [C]
    constructor <;> nlinarith [hs1l, hs1u, hs2l, hs2u, hs3l, hs3u]
  have hlam : 0.334 ≤ lambdaApp (1769 / 7305) - 360 ∧
      lambdaApp (1769 / 7305) - 360 ≤ 0.388 := by
    rw [lambdaApp, trueLong, hL0]
    constructor <;> nlinarith [hC.1, hC.2, hsOl, hsOu]
  have hshift : Real.sin (lambdaApp (1769 / 7305) * DEG)
      = Real.sin ((lambdaApp (1769 / 7305) - 360) * DEG) := by
    rw [show lambdaApp (1769 / 7305) * DEG
        = (lambdaApp (1769 / 7305) - 360) * DEG + (1 : ℤ) * (2 * Real.pi) from by
      rw [DEG]; push_cast; ring]
    rw [Real.sin_add_int_mul_two_pi]
  have habsz : |(lambdaApp (1769 / 7305) - 360) * DEG| ≤ 0.0068 := by
    rw [abs_of_nonneg (mul_nonneg (by linarith [hlam.1])
      (by rw [DEG]; positivity))]
    rw [DEG]
    nlinarith [hlam.1, hlam.2, Real.pi_pos,
      mul_le_mul hlam.2 hpiu.le Real.pi_pos.le (by norm_num : (0 : ℝ) ≤ 0.388)]
  have hsinlam : |Real.sin (lambdaApp (1769 / 7305) * DEG)| ≤ 0.0068 := by
    rw [hshift]
    exact le_trans Real.abs_sin_le_abs habsz
  have hy : |Real.sin (eps (1769 / 7305) * DEG)
      * Real.sin (lambdaApp (1769 / 7305) * DEG)| ≤ 0.0068 := by
    rw [abs_mul]
    have h1 := Real.abs_sin_le_one (eps (1769 / 7305) * DEG)
    have h2 := mul_le_mul h1 hsinlam
      (abs_nonneg (Real.sin (lambdaApp (1769 / 7305) * DEG)))
      (by norm_num : (0 : ℝ) ≤ 1)
    linarith
  have hsin1deg : (0.0068 : ℝ) ≤ Real.sin (Real.pi / 180) := by
    have h1 : (0 : ℝ) < Real.pi / 180 := by positivity
    have h2 : Real.pi / 180 ≤ 1 := by linarith
    have h3 := Real.sin_gt_sub_cube h1 h2
    have hcube : (Real.pi / 180) ^ 3 ≤ 0.0174533 ^ 3 :=
      pow_le_pow_left₀ h1.le (by linarith) 3
    have hc2 : (0.0174533 : ℝ) ^ 3
        = 5316583769877437 / 1000000000000000000000 := by norm_num
    linarith
  have hy' := abs_le.mp hy
  have hple : -(Real.pi / 2) ≤ Real.pi / 180 := by linarith [Real.pi_pos]
  have hpri : Real.pi / 180 ≤ Real.pi / 2 := by linarith [Real.pi_pos]
  rw [abs_le]
  constructor
  · have h1 : -Real.sin (Real.pi / 180)
        ≤ Real.sin (eps (1769 / 7305) * DEG)
          * Real.sin (lambdaApp (1769 / 7305) * DEG) := by
      linarith [hy'.1]
    have h2 := Real.monotone_arcsin h1
    rw [Real.arcsin_neg, Real.arcsin_sin hple hpri] at h2
    linarith
  · have h1 : Real.sin (eps (1769 / 7305) * DEG)
        * Real.sin (lambdaApp (1769 / 7305) * DEG) ≤ Real.sin (Real.pi / 180) := by
      linarith [hy'.2]
    have h2 := Real.monotone_arcsin h1
    rw [Real.arcsin_sin hple hpri] at h2
    linarith

/-- The sine of the mean anomaly at the solstice instant, bracketed by
reduction to `sin(c·π)` with rational `c` and Taylor evaluation. -/
theorem solstice_sinM_bounds :
    0.2361 ≤ Real.sin (M (715 / 2922) * DEG) ∧
      Real.sin (M (715 / 2922) * DEG) ≤ 0.2365 := by
  have hpil := Real.pi_gt_d6
  have hpiu := Real.pi_lt_d6
  have hM : M (715 / 2922) = 31305163732970663 / 3415233600000 := by
    rw [M]; norm_num
  have hid : Real.sin (M (715 / 2922) * DEG)
      = Real.sin (46680715029337 / 614742048000000 * Real.pi) := by
    rw [hM, DEG]
    rw [show (31305163732970663 / 3415233600000 : ℝ) * (Real.pi / 180)
        = Real.pi - (46680715029337 / 614742048000000 * Real.pi
            + (-25 : ℤ) * (2 * Real.pi)) from by push_cast; ring]
    rw [Real.sin_pi_sub, Real.sin_add_int_mul_two_pi]
  rw [hid]
  have hxlo : (0.238558 : ℝ) ≤ 46680715029337 / 614742048000000 * Real.pi := by
    linarith
  have hxhi : (46680715029337 / 614742048000000 : ℝ) * Real.pi ≤ 0.238559 := by
    linarith
  exact sin_in_of_bracket hxlo hxhi (by linarith [Real.pi_pos]) (by linarith)
    (le_trans (by norm_num) (sin_taylor_lb (q := 0.238558) (by norm_num) (by norm_num)))
    (le_trans (sin_taylor_ub (q := 0.238559) (by norm_num) (by norm_num)) (by norm_num))

set_option maxHeartbeats 3200000 in
/-- Near the June 2024 solstice the computed solar declination is within
0.5° of +23.4°. -/
theorem solstice_dec_bound :
    |decOf (T (jd 1718928000000)) - 23.4 * (Real.pi / 180)|
      ≤ 0.5 * (Real.pi / 180) := by
  have ht : T (jd 1718928000000) = 715 / 2922 := by
    rw [T, jd]; norm_num
  rw [ht, decOf]
  have hpil := Real.pi_gt_d6
  have hpiu := Real.pi_lt_d6
  have hL0 : L0 (715 / 2922) = 4786116884981 / 53363025000 := by
    rw [L0, jsMod, jsTrunc, if_pos (by norm_num)]
    rw [show ⌊(280.46646 + 715 / 2922 * (36000.76983 + 0.0003032 * (715 / 2922))
          : ℝ) / 360⌋ = (25 : ℤ) from by
      rw [Int.floor_eq_iff]
      constructor <;> push_cast <;> norm_num]
    push_cast
    norm_num
  obtain ⟨hs1l, hs1u⟩ := solstice_sinM_bounds
  have hs2l := Real.neg_one_le_sin (2.0 * (M (715 / 2922) * DEG))
  have hs2u := Real.sin_le_one (2.0 * (M (715 / 2922) * DEG))
  have hs3l := Real.neg_one_le_sin (3.0 * (M (715 / 2922) * DEG))
  have hs3u := Real.sin_le_one (3.0 * (M (715 / 2922) * DEG))
  have hsOl := Real.neg_one_le_sin (Omega (715 / 2922) * DEG)
  have hsOu := Real.sin_le_one (Omega (715 / 2922) * DEG)
  have hcOl := Real.neg_one_le_cos (Omega (715 / 2922) * DEG)
  have hcOu := Real.cos_le_one (Omega (715 / 2922) * DEG)
  have hC : 0.4315 ≤ C (715 / 2922) ∧ C (715 / 2922) ≤ 0.4728 := by
    rw [C]
    constructor <;> nlinarith [hs1l, hs1u, hs2l, hs2u, hs3l, hs3u]
  have hlam : 0.11 ≤ lambdaApp (715 / 2922) - 90 ∧
      lambdaApp (715 / 2922) - 90 ≤ 0.1617 := by
    rw [lambdaApp, trueLong, hL0]
    constructor <;> nlinarith [hC.1, hC.2, hsOl, hsOu]
  have hid2 : Real.sin (lambdaApp (715 / 2922) * DEG)
      = Real.cos ((lambdaApp (715 / 2922) - 90) * DEG) := by
    rw [← Real.cos_pi_div_two_sub,
      ← Real.cos_neg ((lambdaApp (715 / 2922) - 90) * DEG)]
    congr 1
    rw [DEG]
    ring
  have hz : 0 ≤ (lambdaApp (715 / 2922) - 90) * DEG ∧
      (lambdaApp (715 / 2922) - 90) * DEG ≤ 0.00283 := by
    constructor
    · exact mul_nonneg (by linarith [hlam.1]) (by rw [DEG]; positivity)
    · rw [DEG]
      nlinarith [hlam.1, hlam.2, Real.pi_pos,
        mul_le_mul hlam.2 hpiu.le Real.pi_pos.le (by norm_num : (0 : ℝ) ≤ 0.1617)]
  have hsinlam : 0.99999 ≤ Real.sin (lambdaApp (715 / 2922) * DEG) ∧
      Real.sin (lambdaApp (715 / 2922) * DEG) ≤ 1 := by
    rw [hid2]
    constructor
    · have hmono := Real.cos_le_cos_of_nonneg_of_le_pi hz.1
        (by linarith : (0.00283 : ℝ) ≤ Real.pi) hz.2
      have htay := cos_taylor_lb (q := 0.00283) (by norm_num) (by norm_num)
      have : (0.99999 : ℝ) ≤ 1 - (0.00283 : ℝ) ^ 2 / 2
          - (0.00283 : ℝ) ^ 4 * (5 / 96) := by norm_num
      linarith
    · exact Real.cos_le_one _
  have heps : 23.4335 ≤ eps (715 / 2922) ∧ eps (715 / 2922) ≤ 23.4387 := by
    rw [eps, eps0]
    constructor <;> nlinarith [hcOl, hcOu]
  have hepsR : 0.40899 ≤ eps (715 / 2922) * DEG ∧
      eps (715 / 2922) * DEG ≤ 0.40909 := by
    rw [DEG]
    constructor
    · nlinarith [mul_le_mul heps.1 hpil.le (by norm_num : (0 : ℝ) ≤ 3.141592)
        (by linarith [heps.1] : (0 : ℝ) ≤ eps (715 / 2922))]
    · nlinarith [mul_le_mul heps.2 hpiu.le Real.pi_pos.le
        (by norm_num : (0 : ℝ) ≤ 23.4387)]
  have hsineps : 0.39612 ≤ Real.sin (eps (715 / 2922) * DEG) ∧
      Real.sin (eps (715 / 2922) * DEG) ≤ 0.39914 := by
    refine sin_in_of_bracket hepsR.1 hepsR.2 (by linarith [Real.pi_pos])
      (by linarith) ?_ ?_
    · exact le_trans (by norm_num)
        (sin_taylor_lb (q := 0.40899) (by norm_num) (by norm_num))
    · exact le_trans (sin_taylor_ub (q := 0.40909) (by norm_num) (by norm_num))
        (by norm_num)
  have hy : 0.39611 ≤ Real.sin (eps (715 / 2922) * DEG)
        * Real.sin (lambdaApp (715 / 2922) * DEG) ∧
      Real.sin (eps (715 / 2922) * DEG)
        * Real.sin (lambdaApp (715 / 2922) * DEG) ≤ 0.39914 := by
    constructor
    · have := mul_le_mul hsineps.1 hsinlam.1 (by norm_num)
        (by linarith [hsineps.1])
      linarith
    · have := mul_le_mul hsineps.2 hsinlam.2 (by linarith [hsinlam.1])
        (by norm_num)
      linarith
  have h229 : Real.sin (22.9 * (Real.pi / 180)) ≤ 0.39038 := by
    have harg : 22.9 * (Real.pi / 180) ≤ 0.39969 := by linarith
    have hmono := Real.sin_le_sin_of_le_of_le_pi_div_two
      (by linarith [Real.pi_pos] : -(Real.pi / 2) ≤ 22.9 * (Real.pi / 180))
      (by linarith : (0.39969 : ℝ) ≤ Real.pi / 2) harg
    have htay := sin_taylor_ub (q := 0.39969) (by norm_num) (by norm_num)
    have : (0.39969 : ℝ) - (0.39969 : ℝ) ^ 3 / 6
        + (0.39969 : ℝ) ^ 4 * (5 / 96) ≤ 0.39038 := by norm_num
    linarith
  have h239 : (0.40345 : ℝ) ≤ Real.sin (23.9 * (Real.pi / 180)) := by
    have harg : (0.41713 : ℝ) ≤ 23.9 * (Real.pi / 180) := by linarith
    have hmono := Real.sin_le_sin_of_le_of_le_pi_div_two
      (by linarith [Real.pi_pos] : -(Real.pi / 2) ≤ (0.41713 : ℝ))
      (by linarith [Real.pi_pos] : 23.9 * (Real.pi / 180) ≤ Real.pi / 2) harg
    have htay := sin_taylor_lb (q := 0.41713) (by norm_num) (by norm_num)
    have : (0.40345 : ℝ) ≤ (0.41713 : ℝ) - (0.41713 : ℝ) ^ 3 / 6
        - (0.41713 : ℝ) ^ 4 * (5 / 96) := by norm_num
    linarith
  have hlow : 22.9 * (Real.pi / 180)
      ≤ Real.arcsin (Real.sin (eps (715 / 2922) * DEG)
        * Real.sin (lambdaApp (715 / 2922) * DEG)) := by
    have h1 : Real.sin (22.9 * (Real.pi / 180))
        ≤ Real.sin (eps (715 / 2922) * DEG)
          * Real.sin (lambdaApp (715 / 2922) * DEG) := by linarith [hy.1]
    have h2 := Real.monotone_arcsin h1
    rw [Real.arcsin_sin (by linarith [Real.pi_pos])
      (by linarith [Real.pi_pos])] at h2
    exact h2
  have hhigh : Real.arcsin (Real.sin (eps (715 / 2922) * DEG)
        * Real.sin (lambdaApp (715 / 2922) * DEG))
      ≤ 23.9 * (Real.pi / 180) := by
    have h1 : Real.sin (eps (715 / 2922) * DEG)
          * Real.sin (lambdaApp (715 / 2922) * DEG)
        ≤ Real.sin (23.9 * (Real.pi / 180)) := by linarith [hy.2]
    have h2 := Real.monotone_arcsin h1
    rw [Real.arcsin_sin (by linarith [Real.pi_pos])
      (by linarith [Real.pi_pos])] at h2
    exact h2
  rw [abs_le]
  constructor
  · linarith
  · linarith

/-- Claim C9: the solar ephemeris yields a declination within 1° of 0° at
2024-03-20T12:00:00Z (near the equinox) and within 0.5° of +23.4° at
2024-06-21T00:00:00Z (near the solstice). -/
theorem solar_declination_scenarios :
    |(solarRAdecAndGMST 1710936000000).dec| ≤ Real.pi / 180 ∧
    |(solarRAdecAndGMST 1718928000000).dec - 23.4 * (Real.pi / 180)|
      ≤ 0.5 * (Real.pi / 180) :=
  ⟨equinox_dec_bound, solstice_dec_bound⟩

end Portfolio
